import Mathlib

/-!
Verification of the Memforge backend (src/backend/server.js and
src/backend/models/Deck.js) against its natural-language specification.

The development shallowly embeds:
  * the JavaScript values produced by JSON.parse as an inductive `Json` type,
    together with a character-level JSON parser `parseChars` modelling the
    JSON grammar accepted by JSON.parse.  Numbers are kept symbolically
    (sign, integer digits, fraction digits, exponent) so no floating point
    enters the model; their only observable use is JS truthiness, where the
    numeric value zero is characterised syntactically from the JSON grammar.
  * the two global regex replacements of server.js line 91
    (`replace(/```json\n?/g,'')` then `replace(/```\n?/g,'')`) as the
    executable scanners `strip7` and `strip3`: a global regex replacement
    with an empty replacement finds non-overlapping matches left to right in
    the original string and removes them, which is exactly what the scanners
    do, including the greedy optional trailing newline.
  * the `validFlashcards` filter of server.js lines 103-105 as `filterCards`.
    JavaScript property access `card.front` on the value `null` throws a
    TypeError, which `cardPred` models by returning `none`; on every other
    non-object JSON value it yields `undefined`, modelled as `getProp = none`.
  * the whole POST /api/generate-flashcards handler as `generateHandler`,
    with the external fetch outcome abstracted as a `GatewayOut` argument and
    a returned flag recording whether the gateway was consulted.  V8's
    JSON.parse SyntaxError messages always contain the substring "JSON"
    ("Unexpected token ... in JSON at position ...", "Unexpected end of JSON
    input"), modelled by the concrete message `msgJsonSyntaxError`.
  * the deck persistence contract of Deck.js and the POST /api/decks and
    PUT /api/decks/:id handlers as `createDeck` and `updateDeck` over an
    explicit repository state.  Mongoose semantics modelled: `trim: true`
    setters run before the `required` check, so a missing, null, empty or
    whitespace-only string field fails validation; the `cards` array
    validator requires length > 0; validation happens before the document is
    written, so a failed save persists nothing; `findByIdAndUpdate` with
    `runValidators` validates the update before querying, updates the single
    matched document and (with `new: true`) returns the updated document.
    Timestamps are natural numbers supplied per operation by a monotone
    clock; request bodies carry both `name` and `cards`.
  * JavaScript's `String.prototype.trim` as `jsTrim` (ASCII whitespace; the
    claims only involve ASCII whitespace).
-/

namespace Memforge

/-! ## JSON values and the JSON.parse model -/

inductive Json where
  | null : Json
  | bool (b : Bool) : Json
  | num (neg : Bool) (ip frac : List Char) (ex : Option (Bool × List Char)) : Json
  | str (s : String) : Json
  | arr (items : List Json) : Json
  | obj (fields : List (String × Json)) : Json

def isWs (c : Char) : Bool :=
  c == ' ' || c == '\t' || c == '\n' || c == '\r'

def skipWs : List Char → List Char
  | [] => []
  | c :: r => if isWs c then skipWs r else c :: r

def hexVal (c : Char) : Option Nat :=
  if 48 ≤ c.toNat ∧ c.toNat ≤ 57 then some (c.toNat - 48)
  else if 97 ≤ c.toNat ∧ c.toNat ≤ 102 then some (c.toNat - 87)
  else if 65 ≤ c.toNat ∧ c.toNat ≤ 70 then some (c.toNat - 55)
  else none

def parseStrAux : List Char → List Char → Option (List Char × List Char)
  | _, [] => none
  | acc, c :: r =>
    if c == '"' then some (acc.reverse, r)
    else if c == '\\' then
      match r with
      | [] => none
      | e :: r2 =>
        if e == '"' then parseStrAux ('"' :: acc) r2
        else if e == '\\' then parseStrAux ('\\' :: acc) r2
        else if e == '/' then parseStrAux ('/' :: acc) r2
        else if e == 'b' then parseStrAux ('\x08' :: acc) r2
        else if e == 'f' then parseStrAux ('\x0c' :: acc) r2
        else if e == 'n' then parseStrAux ('\n' :: acc) r2
        else if e == 'r' then parseStrAux ('\r' :: acc) r2
        else if e == 't' then parseStrAux ('\t' :: acc) r2
        else if e == 'u' then
          match r2 with
          | h1 :: h2 :: h3 :: h4 :: r3 =>
            match hexVal h1, hexVal h2, hexVal h3, hexVal h4 with
            | some a, some b, some c2, some d =>
              parseStrAux (Char.ofNat (a * 4096 + b * 256 + c2 * 16 + d) :: acc) r3
            | _, _, _, _ => none
          | _ => none
        else none
    else if c.toNat < 32 then none
    else parseStrAux (c :: acc) r

def takeDigits : List Char → (List Char × List Char)
  | [] => ([], [])
  | c :: r =>
    if c.isDigit then
      let p := takeDigits r
      (c :: p.1, p.2)
    else ([], c :: r)

def afterFrac (neg : Bool) (ip fs : List Char) : List Char → Option (Json × List Char)
  | c :: r =>
    if c == 'e' || c == 'E' then
      let p : Bool × List Char :=
        match r with
        | '+' :: rr => (false, rr)
        | '-' :: rr => (true, rr)
        | _ => (false, r)
      match takeDigits p.2 with
      | ([], _) => none
      | (es, rest) => some (Json.num neg ip fs (some (p.1, es)), rest)
    else some (Json.num neg ip fs none, c :: r)
  | [] => some (Json.num neg ip fs none, [])

def afterInt (neg : Bool) (ip : List Char) : List Char → Option (Json × List Char)
  | '.' :: r =>
    match takeDigits r with
    | ([], _) => none
    | (fs, rest) => afterFrac neg ip fs rest
  | l => afterFrac neg ip [] l

def parseNum (l : List Char) : Option (Json × List Char) :=
  let p : Bool × List Char :=
    match l with
    | '-' :: r => (true, r)
    | _ => (false, l)
  match p.2 with
  | '0' :: r => afterInt p.1 ['0'] r
  | c :: r =>
    if c.isDigit then
      let q := takeDigits r
      afterInt p.1 (c :: q.1) q.2
    else none
  | [] => none

mutual

def parseValue : Nat → List Char → Option (Json × List Char)
  | 0, _ => none
  | f + 1, l =>
    match skipWs l with
    | 'n' :: 'u' :: 'l' :: 'l' :: r => some (Json.null, r)
    | 't' :: 'r' :: 'u' :: 'e' :: r => some (Json.bool true, r)
    | 'f' :: 'a' :: 'l' :: 's' :: 'e' :: r => some (Json.bool false, r)
    | '"' :: r =>
      match parseStrAux [] r with
      | some (cs, rest) => some (Json.str (String.mk cs), rest)
      | none => none
    | '[' :: r =>
      match skipWs r with
      | ']' :: rest => some (Json.arr [], rest)
      | _ => parseArrItems f r []
    | '{' :: r =>
      match skipWs r with
      | '}' :: rest => some (Json.obj [], rest)
      | _ => parseObjItems f r []
    | l2 => parseNum l2

def parseArrItems : Nat → List Char → List Json → Option (Json × List Char)
  | 0, _, _ => none
  | f + 1, l, acc =>
    match parseValue f l with
    | none => none
    | some (v, r) =>
      match skipWs r with
      | ',' :: r2 => parseArrItems f r2 (v :: acc)
      | ']' :: r2 => some (Json.arr (v :: acc).reverse, r2)
      | _ => none

def parseObjItems : Nat → List Char → List (String × Json) → Option (Json × List Char)
  | 0, _, _ => none
  | f + 1, l, acc =>
    match skipWs l with
    | '"' :: r =>
      match parseStrAux [] r with
      | none => none
      | some (kcs, r2) =>
        match skipWs r2 with
        | ':' :: r3 =>
          match parseValue f r3 with
          | none => none
          | some (v, r4) =>
            match skipWs r4 with
            | ',' :: r5 => parseObjItems f r5 ((String.mk kcs, v) :: acc)
            | '}' :: r5 => some (Json.obj ((String.mk kcs, v) :: acc).reverse, r5)
            | _ => none
        | _ => none
    | _ => none

end

def trimTrail (l : List Char) : List Char :=
  (l.reverse.dropWhile isWs).reverse

/-- The JSON.parse model: surrounding whitespace is immaterial, then a single
JSON value must span the entire remaining text.  The fuel `2 * length + 4`
strictly exceeds the call depth the mutual parser can reach on the input,
since at least one character is consumed between consecutive `parseValue`
activations and each activation spends at most two fuel units. -/
def parseChars (l : List Char) : Option Json :=
  let l2 := trimTrail (l.dropWhile isWs)
  match parseValue (2 * l2.length + 4) l2 with
  | some (v, []) => some v
  | _ => none

def parseJson (s : String) : Option Json :=
  parseChars s.toList

/-- JavaScript `String.prototype.trim` (restricted to ASCII whitespace). -/
def jsTrim (s : String) : String :=
  String.mk (trimTrail (s.toList.dropWhile isWs))

/-! ## The code-fence stripping of server.js line 91 -/

/-- The pattern of the first replacement regex. -/
def fj : List Char := ("```json").toList

/-- The pattern of the second replacement regex (also the closing fence). -/
def f3 : List Char := ("```").toList

/-- Predicate: `leads pat l` holds when `pat` begins `l`. -/
def leads : List Char → List Char → Bool
  | [], _ => true
  | _ :: _, [] => false
  | p :: ps, c :: cs => p == c && leads ps cs

/-- Drop one leading newline if present: the greedy regex tail. -/
def dropNl : List Char → List Char
  | '\n' :: t => t
  | t => t

/-- One fuel-indexed step of a global regex replacement `pat\n?` by the empty
string: scan left to right, remove each non-overlapping match together with a
greedily matched trailing newline.  The fuel only drives the recursion; a full
scan needs at most `l.length` units since every step discards at least one
character or keeps one and moves on. -/
def stripF (pat : List Char) : Nat → List Char → List Char
  | 0, l => l
  | _ + 1, [] => []
  | f + 1, c :: cs =>
    if leads pat (c :: cs) then stripF pat f (dropNl (cs.drop (pat.length - 1)))
    else c :: stripF pat f cs

def stripAll (pat l : List Char) : List Char := stripF pat l.length l

/-- Both replacements of server.js line 91 in order:
`replace(/```json\n?/g, '')` then `replace(/```\n?/g, '')`. -/
def sanitizeChars (l : List Char) : List Char := stripAll f3 (stripAll fj l)

/-- The sanitizer stage: fence removal followed by JSON parsing. -/
def sanitizeParse (s : String) : Option Json :=
  parseChars (sanitizeChars s.toList)

/-- A payload wrapped in a code fence with the `json` language tag. -/
def wrapFenceJson (p : String) : String := "```json\n" ++ p ++ "\n```"

/-- A payload wrapped in a bare code fence (no language tag). -/
def wrapFencePlain (p : String) : String := "```\n" ++ p ++ "\n```"

/-! ## The flashcard filter of server.js lines 103-105 -/

/-- Last binding wins, as for duplicate keys in JSON.parse. -/
def lookupLast : List (String × Json) → String → Option Json
  | [], _ => none
  | (k, v) :: r, key =>
    match lookupLast r key with
    | some w => some w
    | none => if k = key then some v else none

/-- JavaScript property access on a JSON.parse value, `none` = undefined.
Access on `Json.null` is never consulted here: `cardPred` throws first. -/
def getProp : Json → String → Option Json
  | Json.obj fields, key => lookupLast fields key
  | _, _ => none

/-- JavaScript truthiness of a possibly-undefined JSON.parse value.  A number
is falsy exactly when its value is zero, which the JSON number grammar makes
syntactic: integer part "0" and all fraction digits zero.  (Exponents that
underflow a double to zero are not modelled; number truthiness is never
decisive in the filter because the `typeof` conjunct rejects numbers.) -/
def jsTruthy : Option Json → Bool
  | none => false
  | some Json.null => false
  | some (Json.bool b) => b
  | some (Json.num _ ip frac _) => !(ip == ['0'] && frac.all (fun c => c == '0'))
  | some (Json.str s) => !s.isEmpty
  | some (Json.arr _) => true
  | some (Json.obj _) => true

/-- Test `typeof x === 'string'` on a possibly-undefined JSON.parse value. -/
def isStringT : Option Json → Bool
  | some (Json.str _) => true
  | _ => false

/-- The filter predicate
`card.front && card.back && typeof card.front === 'string' && typeof card.back === 'string'`;
`none` models the TypeError thrown by `card.front` when `card` is `null`. -/
def cardPred : Json → Option Bool
  | Json.null => none
  | c =>
    some (jsTruthy (getProp c ("front")) && jsTruthy (getProp c ("back")) &&
          isStringT (getProp c ("front")) && isStringT (getProp c ("back")))

/-- Model of `flashcards.filter(...)`; `none` models the thrown TypeError
aborting the whole filter. -/
def filterCards : List Json → Option (List Json)
  | [] => some []
  | c :: rest =>
    match cardPred c with
    | none => none
    | some b =>
      match filterCards rest with
      | none => none
      | some l => some (if b then c :: l else l)

/-- A candidate both of whose `front`/`back` properties are non-empty strings:
the characterisation of what the source filter keeps. -/
def nonEmptyStrProp : Option Json → Bool
  | some (Json.str s) => !s.isEmpty
  | _ => false

def goodCard (c : Json) : Bool :=
  nonEmptyStrProp (getProp c ("front")) && nonEmptyStrProp (getProp c ("back"))

/-! ## The generate-flashcards handler -/

/-- JavaScript `haystack.includes(needle)` via an explicit occurrence scan. -/
def occurs (pat : List Char) : List Char → Bool
  | [] => leads pat []
  | c :: cs => leads pat (c :: cs) || occurs pat cs

def includesStr (s pat : String) : Bool := occurs pat.toList s.toList

def msgTextRequired : String := "Text is required"

def msgKeyMissing : String :=
  "API key not configured. Please add GEMINI_API_KEY to your .env file"

def msgParseFail : String := "Failed to parse AI response. Please try again."

def msgGenericFail : String := "Failed to generate flashcards"

def msgInvalidFormat : String := "Invalid flashcards format received from AI"

def msgNoValid : String := "No valid flashcards could be generated"

/-- V8 TypeError message for property access on null; contains no "JSON". -/
def msgNullProp : String := "Cannot read properties of null (reading 'front')"

/-- Representative V8 JSON.parse SyntaxError message; every such message
contains the substring "JSON". -/
def msgJsonSyntaxError : String := "Unexpected token in JSON at position 0"

def msgGemini (m : String) : String := "Gemini API error: " ++ m

/-- Outcome of the fetch to the provider, as observed by the handler after
envelope extraction: a non-ok HTTP response with its reported message, or the
raw generated text. -/
inductive GatewayOut where
  | httpError (msg : String) : GatewayOut
  | ok (raw : String) : GatewayOut

/-- The JSON bodies the handler can answer with: 200 with flashcards and
count, 400 with an error message, or 500 with an error message and a details
field carrying the caught error's message. -/
inductive GenResp where
  | success (flashcards : List Json) (count : Nat) : GenResp
  | badReq (msg : String) : GenResp
  | srvErr (msg : String) (details : Option String) : GenResp

/-- The catch block of server.js lines 117-131: substring dispatch on the
caught error's message. -/
def runCatch (m : String) : GenResp :=
  if includesStr m ("JSON") then GenResp.srvErr msgParseFail (some m)
  else GenResp.srvErr msgGenericFail (some m)

/-- Server.js lines 107-116: the outcome of the filter, either the TypeError
thrown on a null candidate, the empty-survivors error, or the 200 body. -/
def afterFilter : Option (List Json) → GenResp × Bool
  | none => (runCatch msgNullProp, true)
  | some valid =>
    if valid.isEmpty then (runCatch msgNoValid, true)
    else (GenResp.success valid valid.length, true)

/-- Server.js lines 96-116: the outcome of JSON.parse onwards. -/
def afterParse : Option Json → GenResp × Bool
  | none => (runCatch msgJsonSyntaxError, true)
  | some (Json.arr cards) =>
    if cards.isEmpty then (runCatch msgInvalidFormat, true)
    else afterFilter (filterCards cards)
  | some _ => (runCatch msgInvalidFormat, true)

/-- POST /api/generate-flashcards (server.js lines 29-132).  The returned
flag records whether the external provider was consulted. -/
def generateHandler (text : String) (keyConfigured : Bool) (gw : GatewayOut) :
    GenResp × Bool :=
  if jsTrim text = "" then (GenResp.badReq msgTextRequired, false)
  else if keyConfigured then
    match gw with
    | GatewayOut.httpError m => (runCatch (msgGemini m), true)
    | GatewayOut.ok raw => afterParse (parseChars (sanitizeChars (jsTrim raw).toList))
  else (GenResp.srvErr msgKeyMissing none, false)

/-! ## The deck repository -/

/-- A persisted card: mongoose has already trimmed both fields. -/
structure Card where
  front : String
  back : String
deriving DecidableEq

/-- A card as it arrives in a request body; `none` covers an absent or null
field. -/
structure CardInput where
  front : Option String
  back : Option String
deriving DecidableEq

structure Deck where
  id : Nat
  name : String
  cards : List Card
  createdAt : Nat
  updatedAt : Nat
deriving DecidableEq

structure RepoState where
  decks : List Deck
  nextId : Nat
deriving DecidableEq

def initState : RepoState := { decks := [], nextId := 0 }

/-- Mongoose cast of one card subdocument: `trim: true` then `required`. -/
def castCard (c : CardInput) : Option Card :=
  match c.front, c.back with
  | some f, some b =>
    if jsTrim f = "" then none
    else if jsTrim b = "" then none
    else some { front := jsTrim f, back := jsTrim b }
  | _, _ => none

def castCards : List CardInput → Option (List Card)
  | [] => some []
  | c :: r =>
    match castCard c, castCards r with
    | some c2, some r2 => some (c2 :: r2)
    | _, _ => none

/-- Document validation of Deck.js: trimmed required name, all card
subdocuments valid, and the `cards.length > 0` validator. -/
def validateDeckDoc (name : String) (cards : List CardInput) :
    Option (String × List Card) :=
  if jsTrim name = "" then none
  else
    match castCards cards with
    | none => none
    | some cds => if cds.isEmpty then none else some (jsTrim name, cds)

inductive CreateRes where
  | badRequest (msg : String) : CreateRes
  | created (deck : Deck) : CreateRes
  | serverError (msg : String) : CreateRes
deriving DecidableEq

def statusOfCreate : CreateRes → Nat
  | CreateRes.badRequest _ => 400
  | CreateRes.created _ => 201
  | CreateRes.serverError _ => 500

def msgNameCardsRequired : String := "Name and cards array are required"

def msgAtLeastOne : String := "Deck must contain at least one card"

def msgCreateFail : String := "Failed to create deck"

def msgUpdateFail : String := "Failed to update deck"

/-- POST /api/decks (server.js lines 160-184).  `name = none` covers an
absent name, `some ""` the empty string (both falsy); `cards = none` covers
an absent or non-array value.  A mongoose validation failure surfaces in the
catch block as a 500. -/
def createDeck (st : RepoState) (now : Nat) (name : Option String)
    (cards : Option (List CardInput)) : CreateRes × RepoState :=
  match name, cards with
  | none, _ => (CreateRes.badRequest msgNameCardsRequired, st)
  | some _, none => (CreateRes.badRequest msgNameCardsRequired, st)
  | some n, some cs =>
    if n = "" then (CreateRes.badRequest msgNameCardsRequired, st)
    else if cs.isEmpty then (CreateRes.badRequest msgAtLeastOne, st)
    else
      match validateDeckDoc n cs with
      | none => (CreateRes.serverError msgCreateFail, st)
      | some (n2, cds) =>
        let d : Deck :=
          { id := st.nextId, name := n2, cards := cds, createdAt := now,
            updatedAt := now }
        (CreateRes.created d, { decks := st.decks ++ [d], nextId := st.nextId + 1 })

inductive UpdateRes where
  | notFound : UpdateRes
  | updated (deck : Deck) : UpdateRes
  | updateError (msg : String) : UpdateRes
deriving DecidableEq

def statusOfUpdate : UpdateRes → Nat
  | UpdateRes.notFound => 404
  | UpdateRes.updated _ => 200
  | UpdateRes.updateError _ => 500

def findDeck : List Deck → Nat → Option Deck
  | [], _ => none
  | d :: r, i => if d.id = i then some d else findDeck r i

/-- Replace the single matched document. -/
def replaceById : List Deck → Nat → Deck → List Deck
  | [], _, _ => []
  | d :: r, i, d2 => if d.id = i then d2 :: r else d :: replaceById r i d2

/-- The in-place field assignment performed by the update: new name and
cards, `updatedAt` set to now, `id` and `createdAt` untouched. -/
def withUpdate (d : Deck) (n2 : String) (cds : List Card) (now : Nat) : Deck :=
  { d with name := n2, cards := cds, updatedAt := now }

/-- The state with its deck collection swapped out. -/
def stWith (st : RepoState) (ds : List Deck) : RepoState :=
  { st with decks := ds }

/-- The write phase of `findByIdAndUpdate` after a validated cast: query by
id, then update that one document, returning the updated document. -/
def updateApply (st : RepoState) (now i : Nat) (n2 : String) (cds : List Card) :
    UpdateRes × RepoState :=
  match findDeck st.decks i with
  | none => (UpdateRes.notFound, st)
  | some d =>
    (UpdateRes.updated (withUpdate d n2 cds now),
     stWith st (replaceById st.decks i (withUpdate d n2 cds now)))

/-- PUT /api/decks/:id (server.js lines 187-207): `findByIdAndUpdate` with
`runValidators` validates the update first, then queries; `new: true`
returns the updated document. -/
def updateDeck (st : RepoState) (now : Nat) (i : Nat) (name : String)
    (cards : List CardInput) : UpdateRes × RepoState :=
  match validateDeckDoc name cards with
  | none => (UpdateRes.updateError msgUpdateFail, st)
  | some (n2, cds) => updateApply st now i n2 cds

/-- GET /api/decks/:id (server.js lines 146-157): `none` is the 404 case. -/
def getDeck (st : RepoState) (i : Nat) : Option Deck :=
  findDeck st.decks i

/-- The deck invariants of the specification's data model. -/
def DeckInv (d : Deck) : Prop :=
  d.cards ≠ [] ∧ (∀ c ∈ d.cards, c.front ≠ "" ∧ c.back ≠ "") ∧
    d.createdAt ≤ d.updatedAt

/-- Identifiers are unique and below the allocation counter. -/
def WfIds (st : RepoState) : Prop :=
  (∀ d ∈ st.decks, d.id < st.nextId) ∧
    (st.decks.map (fun d => d.id)).Nodup

/-- States reachable through the repository operations, under a monotone
clock: an update is performed at a time not earlier than any stored creation
time. -/
inductive Reachable : RepoState → Prop
  | init : Reachable initState
  | createStep (st : RepoState) (now : Nat) (name : Option String)
      (cards : Option (List CardInput)) : Reachable st →
      Reachable (createDeck st now name cards).2
  | updateStep (st : RepoState) (now : Nat) (i : Nat) (name : String)
      (cards : List CardInput) : Reachable st →
      (∀ d ∈ st.decks, d.createdAt ≤ now) →
      Reachable (updateDeck st now i name cards).2

/-- Builders used in concrete witnesses. -/
def mkCard (f b : String) : Card := { front := f, back := b }

def cardIn (f b : String) : CardInput := { front := some f, back := some b }

def mkDeck (i : Nat) (n : String) (cs : List Card) (ca ua : Nat) : Deck :=
  { id := i, name := n, cards := cs, createdAt := ca, updatedAt := ua }

def mkState (ds : List Deck) (ni : Nat) : RepoState := { decks := ds, nextId := ni }

/-- The concrete candidate with a whitespace-only front field. -/
def wsFrontCard : Json := Json.obj [("front", Json.str (" ")), ("back", Json.str ("A"))]

/-- The concrete invalid card input with an empty front. -/
def badCardInput : CardInput := { front := some (""), back := some ("A") }

/-! ## Lemmas: the fence stripper -/

theorem dropNl_length_le (t : List Char) : (dropNl t).length ≤ t.length := by
  rw [dropNl.eq_def]
  split <;> simp

theorem dropNl_cons_ne {c : Char} (t : List Char) (h : c ≠ '\n') :
    dropNl (c :: t) = c :: t := by
  rw [dropNl.eq_def]
  split
  · rename_i t2 heq
    injection heq with h1 _
    exact absurd h1 h
  · rfl

theorem leads_iff (pat l : List Char) : leads pat l = true ↔ ∃ t, l = pat ++ t := by
  induction pat generalizing l with
  | nil => simp [leads]
  | cons p ps ih =>
    cases l with
    | nil => simp [leads]
    | cons c cs =>
      simp only [leads, Bool.and_eq_true, beq_iff_eq, ih, List.cons_append]
      constructor
      · rintro ⟨rfl, t, rfl⟩
        exact ⟨t, rfl⟩
      · rintro ⟨t, ht⟩
        injection ht with h1 h2
        exact ⟨h1.symm, t, h2⟩

theorem leads_mono_append {pat l : List Char} (s : List Char)
    (h : leads pat l = true) : leads pat (l ++ s) = true := by
  obtain ⟨t, rfl⟩ := (leads_iff pat l).mp h
  rw [List.append_assoc]
  exact (leads_iff _ _).mpr ⟨t ++ s, rfl⟩

theorem leads_false_of_append {pat l s : List Char}
    (h : leads pat (l ++ s) = false) : leads pat l = false := by
  cases hc : leads pat l with
  | false => rfl
  | true => rw [leads_mono_append s hc] at h; exact Bool.noConfusion h

theorem leads_short_nl {pat : List Char} (p s : List Char)
    (hn : ('\n' : Char) ∉ pat) (hlen : p.length < pat.length) :
    leads pat (p ++ '\n' :: s) = false := by
  cases hL : leads pat (p ++ '\n' :: s) with
  | false => rfl
  | true =>
    exfalso
    obtain ⟨t, ht⟩ := (leads_iff _ _).mp hL
    apply hn
    have h1 : (p ++ '\n' :: s).take (p.length + 1) = p ++ ['\n'] := by
      rw [List.take_append_eq_append_take]
      simp [List.take_of_length_le]
    have h2 : (pat ++ t).take (p.length + 1) = pat.take (p.length + 1) :=
      List.take_append_of_le_length (by omega)
    rw [ht, h2] at h1
    have hmem : ('\n' : Char) ∈ pat.take (p.length + 1) := by
      rw [h1]; simp
    exact List.take_subset _ _ hmem

theorem leads_decomp {pat p s : List Char} (hpl : pat.length ≤ p.length)
    (h : leads pat (p ++ s) = true) : p = pat ++ p.drop pat.length := by
  obtain ⟨t, ht⟩ := (leads_iff _ _).mp h
  have h1 : p.take pat.length = pat := by
    have h2 := congrArg (List.take pat.length) ht
    rw [List.take_append_of_le_length hpl, List.take_left] at h2
    exact h2
  conv_lhs => rw [← List.take_append_drop pat.length p]
  rw [h1]

theorem stripF_nil (pat : List Char) (f : Nat) : stripF pat f [] = [] := by
  cases f <;> rfl

theorem stripF_congr (pat : List Char) :
    ∀ f g l, l.length ≤ f → l.length ≤ g → stripF pat f l = stripF pat g l := by
  intro f
  induction f with
  | zero =>
    intro g l hf _
    have hl : l = [] := List.eq_nil_of_length_eq_zero (Nat.le_zero.mp hf)
    subst hl
    rw [stripF_nil, stripF_nil]
  | succ m ih =>
    intro g l hf hg
    cases l with
    | nil => rw [stripF_nil, stripF_nil]
    | cons c cs =>
      cases g with
      | zero => simp at hg
      | succ g2 =>
        show stripF pat (m + 1) (c :: cs) = stripF pat (g2 + 1) (c :: cs)
        simp only [stripF]
        by_cases hL : leads pat (c :: cs) = true
        · rw [if_pos hL, if_pos hL]
          have hlen : (dropNl (cs.drop (pat.length - 1))).length ≤ cs.length := by
            calc (dropNl (cs.drop (pat.length - 1))).length
                ≤ (cs.drop (pat.length - 1)).length := dropNl_length_le _
              _ ≤ cs.length := by simp
          apply ih
          · have : cs.length ≤ m := by simpa using hf
            omega
          · have : cs.length ≤ g2 := by simpa using hg
            omega
        · rw [if_neg hL, if_neg hL]
          have h1 : cs.length ≤ m := by simpa using hf
          have h2 : cs.length ≤ g2 := by simpa using hg
          rw [ih g2 cs h1 h2]

theorem stripAll_nil (pat : List Char) : stripAll pat [] = [] := rfl

theorem stripAll_cons (pat : List Char) (c : Char) (cs : List Char) :
    stripAll pat (c :: cs) =
      if leads pat (c :: cs) then stripAll pat (dropNl (cs.drop (pat.length - 1)))
      else c :: stripAll pat cs := by
  show stripF pat (cs.length + 1) (c :: cs) = _
  simp only [stripF]
  by_cases hL : leads pat (c :: cs) = true
  · rw [if_pos hL, if_pos hL]
    apply stripF_congr
    · calc (dropNl (cs.drop (pat.length - 1))).length
          ≤ (cs.drop (pat.length - 1)).length := dropNl_length_le _
        _ ≤ cs.length := by simp
    · exact le_rfl
  · rw [if_neg hL, if_neg hL]
    rfl

theorem stripAll_cons_neg {pat : List Char} {c : Char} {cs : List Char}
    (h : leads pat (c :: cs) = false) :
    stripAll pat (c :: cs) = c :: stripAll pat cs := by
  rw [stripAll_cons, if_neg (by simp [h])]

theorem stripAll_head (pat : List Char) (hne : pat ≠ []) (t : List Char) :
    stripAll pat (pat ++ t) = stripAll pat (dropNl t) := by
  cases pat with
  | nil => exact absurd rfl hne
  | cons p ps =>
    rw [List.cons_append, stripAll_cons]
    have hL : leads (p :: ps) (p :: (ps ++ t)) = true :=
      (leads_iff _ _).mpr ⟨t, rfl⟩
    rw [if_pos hL]
    have harg : (ps ++ t).drop ((p :: ps).length - 1) = t := by
      simp
    rw [harg]

/-- Appending the closing fence `"\n```"` to the first replacement's input
either passes through untouched or, when a `"```json"` match ends exactly at
the boundary, loses the boundary newline to the greedy `\n?`. -/
theorem strip7_suffix_aux : ∀ n p, p.length ≤ n →
    stripAll fj (p ++ '\n' :: f3) = stripAll fj p ++ '\n' :: f3 ∨
      stripAll fj (p ++ '\n' :: f3) = stripAll fj p ++ f3 := by
  intro n
  induction n with
  | zero =>
    intro p hp
    have hpe : p = [] := List.eq_nil_of_length_eq_zero (Nat.le_zero.mp hp)
    subst hpe
    left
    rfl
  | succ m ih =>
    intro p hp
    by_cases hL : leads fj (p ++ '\n' :: f3) = true
    · have hlen : fj.length ≤ p.length := by
        by_contra hc
        push_neg at hc
        rw [leads_short_nl p f3 (by decide) hc] at hL
        exact Bool.noConfusion hL
      have hdecomp : p = fj ++ p.drop fj.length := leads_decomp hlen hL
      have hplen : p.length = fj.length + (p.drop fj.length).length := by
        conv_lhs => rw [hdecomp]
        simp
      rw [hdecomp, List.append_assoc, stripAll_head fj (by decide),
        stripAll_head fj (by decide)]
      cases hp2 : p.drop fj.length with
      | nil =>
        right
        rfl
      | cons c2 r2 =>
        by_cases hc2 : c2 = '\n'
        · subst hc2
          have e1 : dropNl ('\n' :: (r2 ++ '\n' :: f3)) = r2 ++ '\n' :: f3 := rfl
          have e2 : dropNl ('\n' :: r2) = r2 := rfl
          rw [show ('\n' :: r2 ++ '\n' :: f3) = '\n' :: (r2 ++ '\n' :: f3) from rfl,
            e1, e2]
          apply ih
          rw [hp2] at hplen
          simp at hplen
          have hfj : fj.length = 7 := by decide
          omega
        · rw [List.cons_append, dropNl_cons_ne (r2 ++ '\n' :: f3) hc2,
            dropNl_cons_ne r2 hc2, ← List.cons_append]
          apply ih
          rw [hp2] at hplen
          simp at hplen
          have hfj : fj.length = 7 := by decide
          simp only [List.length_cons]
          omega
    · rw [Bool.not_eq_true] at hL
      cases p with
      | nil =>
        left
        rfl
      | cons c cs =>
        rw [List.cons_append] at hL
        have hcc : leads fj (c :: cs) = false :=
          @leads_false_of_append fj (c :: cs) ('\n' :: f3) hL
        rw [List.cons_append, stripAll_cons_neg hL, stripAll_cons_neg hcc]
        have hcs : cs.length ≤ m := by simpa using hp
        rcases ih cs hcs with h | h
        · left
          rw [h, List.cons_append]
        · right
          rw [h, List.cons_append]

theorem strip7_suffix (p : List Char) :
    stripAll fj (p ++ '\n' :: f3) = stripAll fj p ++ '\n' :: f3 ∨
      stripAll fj (p ++ '\n' :: f3) = stripAll fj p ++ f3 :=
  strip7_suffix_aux p.length p le_rfl

/-- Appending `"\n```"` to the second replacement's input leaves at most the
lone newline behind: the closing fence itself is always removed. -/
theorem strip3_suffix_aux : ∀ n q, q.length ≤ n →
    stripAll f3 (q ++ '\n' :: f3) = stripAll f3 q ++ ['\n'] ∨
      stripAll f3 (q ++ '\n' :: f3) = stripAll f3 q := by
  intro n
  induction n with
  | zero =>
    intro q hq
    have hqe : q = [] := List.eq_nil_of_length_eq_zero (Nat.le_zero.mp hq)
    subst hqe
    left
    rfl
  | succ m ih =>
    intro q hq
    by_cases hL : leads f3 (q ++ '\n' :: f3) = true
    · have hlen : f3.length ≤ q.length := by
        by_contra hc
        push_neg at hc
        rw [leads_short_nl q f3 (by decide) hc] at hL
        exact Bool.noConfusion hL
      have hdecomp : q = f3 ++ q.drop f3.length := leads_decomp hlen hL
      have hplen : q.length = f3.length + (q.drop f3.length).length := by
        conv_lhs => rw [hdecomp]
        simp
      rw [hdecomp, List.append_assoc, stripAll_head f3 (by decide),
        stripAll_head f3 (by decide)]
      cases hp2 : q.drop f3.length with
      | nil =>
        right
        rfl
      | cons c2 r2 =>
        by_cases hc2 : c2 = '\n'
        · subst hc2
          have e1 : dropNl ('\n' :: (r2 ++ '\n' :: f3)) = r2 ++ '\n' :: f3 := rfl
          have e2 : dropNl ('\n' :: r2) = r2 := rfl
          rw [show ('\n' :: r2 ++ '\n' :: f3) = '\n' :: (r2 ++ '\n' :: f3) from rfl,
            e1, e2]
          apply ih
          rw [hp2] at hplen
          simp at hplen
          have hf3 : f3.length = 3 := by decide
          omega
        · rw [List.cons_append, dropNl_cons_ne (r2 ++ '\n' :: f3) hc2,
            dropNl_cons_ne r2 hc2, ← List.cons_append]
          apply ih
          rw [hp2] at hplen
          simp at hplen
          have hf3 : f3.length = 3 := by decide
          simp only [List.length_cons]
          omega
    · rw [Bool.not_eq_true] at hL
      cases q with
      | nil =>
        left
        rfl
      | cons c cs =>
        rw [List.cons_append] at hL
        have hcc : leads f3 (c :: cs) = false :=
          @leads_false_of_append f3 (c :: cs) ('\n' :: f3) hL
        rw [List.cons_append, stripAll_cons_neg hL, stripAll_cons_neg hcc]
        have hcs : cs.length ≤ m := by simpa using hq
        rcases ih cs hcs with h | h
        · left
          rw [h, List.cons_append]
        · right
          rw [h]

theorem strip3_suffix (q : List Char) :
    stripAll f3 (q ++ '\n' :: f3) = stripAll f3 q ++ ['\n'] ∨
      stripAll f3 (q ++ '\n' :: f3) = stripAll f3 q :=
  strip3_suffix_aux q.length q le_rfl

/-- Appending a bare `"```"` is invisible to the second replacement: it joins
any trailing backtick run, and removal counts agree modulo three. -/
theorem strip3_app_fence_aux : ∀ n q, q.length ≤ n →
    stripAll f3 (q ++ f3) = stripAll f3 q := by
  intro n
  induction n with
  | zero =>
    intro q hq
    have hqe : q = [] := List.eq_nil_of_length_eq_zero (Nat.le_zero.mp hq)
    subst hqe
    rfl
  | succ m ih =>
    intro q hq
    by_cases hL : leads f3 (q ++ f3) = true
    · by_cases hlen : f3.length ≤ q.length
      · have hdecomp : q = f3 ++ q.drop f3.length := leads_decomp hlen hL
        have hplen : q.length = f3.length + (q.drop f3.length).length := by
          conv_lhs => rw [hdecomp]
          simp
        rw [hdecomp, List.append_assoc, stripAll_head f3 (by decide),
          stripAll_head f3 (by decide)]
        cases hp2 : q.drop f3.length with
        | nil =>
          rfl
        | cons c2 r2 =>
          by_cases hc2 : c2 = '\n'
          · subst hc2
            have e1 : dropNl ('\n' :: (r2 ++ f3)) = r2 ++ f3 := rfl
            have e2 : dropNl ('\n' :: r2) = r2 := rfl
            rw [show ('\n' :: r2 ++ f3) = '\n' :: (r2 ++ f3) from rfl, e1, e2]
            apply ih
            rw [hp2] at hplen
            simp at hplen
            have hf3 : f3.length = 3 := by decide
            omega
          · rw [List.cons_append, dropNl_cons_ne (r2 ++ f3) hc2,
              dropNl_cons_ne r2 hc2, ← List.cons_append]
            apply ih
            rw [hp2] at hplen
            simp at hplen
            have hf3 : f3.length = 3 := by decide
            simp only [List.length_cons]
            omega
      · push_neg at hlen
        have hq3 : q = f3.take q.length := by
          obtain ⟨t, ht⟩ := (leads_iff _ _).mp hL
          have h2 := congrArg (List.take q.length) ht
          rw [List.take_left, List.take_append_of_le_length (by omega)] at h2
          exact h2
        match q, hq3, hlen with
        | [], hq3, _ => rfl
        | [a], hq3, _ =>
          rw [show ([a] : List Char) = f3.take 1 from hq3]
          rfl
        | [a, b], hq3, _ =>
          rw [show ([a, b] : List Char) = f3.take 2 from hq3]
          rfl
        | a :: b :: c :: r, _, hlen =>
          have hf3 : f3.length = 3 := by decide
          rw [hf3] at hlen
          simp at hlen
          omega
    · rw [Bool.not_eq_true] at hL
      cases q with
      | nil =>
        have : leads f3 (([] : List Char) ++ f3) = true := by rfl
        rw [this] at hL
        exact Bool.noConfusion hL
      | cons c cs =>
        rw [List.cons_append] at hL
        have hcc : leads f3 (c :: cs) = false :=
          @leads_false_of_append f3 (c :: cs) f3 hL
        rw [List.cons_append, stripAll_cons_neg hL, stripAll_cons_neg hcc,
          ih cs (by simpa using hq)]

theorem strip3_app_fence (q : List Char) :
    stripAll f3 (q ++ f3) = stripAll f3 q :=
  strip3_app_fence_aux q.length q le_rfl

/-- The opening `"```json\n"` fence is removed by the first replacement. -/
theorem strip7_json_fence (X : List Char) :
    stripAll fj (fj ++ '\n' :: X) = stripAll fj X := by
  rw [stripAll_head fj (by decide)]
  rfl

/-- The first replacement passes a bare opening fence `"```\n"` through. -/
theorem strip7_plain_fence (X : List Char) :
    stripAll fj (f3 ++ '\n' :: X) = f3 ++ '\n' :: stripAll fj X := rfl

/-- The second replacement removes a leading bare fence `"```\n"`. -/
theorem strip3_plain_fence (Y : List Char) :
    stripAll f3 (f3 ++ '\n' :: Y) = stripAll f3 Y := by
  rw [stripAll_head f3 (by decide)]
  rfl

/-! ## Lemmas: parsing ignores a trailing newline -/

theorem trimTrail_nl (z : List Char) : trimTrail (z ++ ['\n']) = trimTrail z := by
  show (((z ++ ['\n']).reverse).dropWhile isWs).reverse = _
  rw [List.reverse_append]
  have h1 : (['\n'] : List Char).reverse ++ z.reverse = '\n' :: z.reverse := rfl
  rw [h1]
  have h2 : List.dropWhile isWs ('\n' :: z.reverse) = List.dropWhile isWs z.reverse := by
    rw [List.dropWhile_cons]
    simp [isWs]
  rw [h2]
  rfl

theorem parseChars_nl (x : List Char) : parseChars (x ++ ['\n']) = parseChars x := by
  have key : trimTrail ((x ++ ['\n']).dropWhile isWs) = trimTrail (x.dropWhile isWs) := by
    induction x with
    | nil => rfl
    | cons c cs ih =>
      by_cases hws : isWs c = true
      · rw [List.cons_append, List.dropWhile_cons, List.dropWhile_cons,
          if_pos hws, if_pos hws]
        exact ih
      · rw [List.cons_append, List.dropWhile_cons, List.dropWhile_cons,
          if_neg hws, if_neg hws]
        exact trimTrail_nl (c :: cs)
  simp only [parseChars]
  rw [key]

/-! ## Claim C3 -/

theorem toList_append3 (a : String) (p : String) (b : String) :
    ((a ++ p) ++ b).toList = a.toList ++ (p.toList ++ b.toList) := by
  show ((a ++ p) ++ b).data = a.data ++ (p.data ++ b.data)
  rw [String.data_append, String.data_append, List.append_assoc]

/-- Claim C3: sanitizing a payload wrapped in code-fence markup — with or
without a language tag — yields the same parsed result as sanitizing the
unwrapped payload.  The wrapped sanitizer output differs from the unwrapped
one by at most a trailing newline, which parsing ignores. -/
theorem claim3_fence_wrap_transparent (p : String) :
    sanitizeParse (wrapFenceJson p) = sanitizeParse p ∧
    sanitizeParse (wrapFencePlain p) = sanitizeParse p := by
  have core : ∀ pl : List Char,
      parseChars (stripAll f3 (stripAll fj (pl ++ '\n' :: f3))) =
        parseChars (stripAll f3 (stripAll fj pl)) := by
    intro pl
    rcases strip7_suffix pl with h | h
    · rw [h]
      rcases strip3_suffix (stripAll fj pl) with h2 | h2
      · rw [h2, parseChars_nl]
      · rw [h2]
    · rw [h, strip3_app_fence]
  constructor
  · show parseChars (sanitizeChars (wrapFenceJson p).toList) = _
    have ht : (wrapFenceJson p).toList = fj ++ '\n' :: (p.toList ++ '\n' :: f3) := by
      show ((("```json\n" : String) ++ p) ++ ("\n```" : String)).toList = _
      rw [toList_append3]
      rfl
    rw [ht]
    show parseChars (stripAll f3 (stripAll fj (fj ++ '\n' :: (p.toList ++ '\n' :: f3)))) = _
    rw [strip7_json_fence]
    exact core p.toList
  · show parseChars (sanitizeChars (wrapFencePlain p).toList) = _
    have ht : (wrapFencePlain p).toList = f3 ++ '\n' :: (p.toList ++ '\n' :: f3) := by
      show ((("```\n" : String) ++ p) ++ ("\n```" : String)).toList = _
      rw [toList_append3]
      rfl
    rw [ht]
    show parseChars (stripAll f3 (stripAll fj (f3 ++ '\n' :: (p.toList ++ '\n' :: f3)))) = _
    rw [strip7_plain_fence, strip3_plain_fence]
    exact core p.toList

/-! ## Lemmas: the card filter and the handler -/

theorem truthy_str_eq (x : Option Json) :
    (jsTruthy x && isStringT x) = nonEmptyStrProp x := by
  rcases x with _ | j
  · rfl
  · cases j <;> simp [jsTruthy, isStringT, nonEmptyStrProp]

theorem cardPred_eq_good (c : Json) (h : c ≠ Json.null) :
    cardPred c = some (goodCard c) := by
  have key : ∀ x y : Option Json,
      (((jsTruthy x && jsTruthy y) && isStringT x) && isStringT y) =
        (nonEmptyStrProp x && nonEmptyStrProp y) := by
    intro x y
    have hre : ∀ a b c2 d : Bool, (((a && b) && c2) && d) = ((a && c2) && (b && d)) := by
      decide
    rw [hre, truthy_str_eq, truthy_str_eq]
  cases c with
  | null => exact absurd rfl h
  | bool b => exact congrArg some (key _ _)
  | num a b c2 d => exact congrArg some (key _ _)
  | str s => exact congrArg some (key _ _)
  | arr l => exact congrArg some (key _ _)
  | obj l => exact congrArg some (key _ _)

theorem filterCards_eq (cands : List Json) (h : ∀ c ∈ cands, c ≠ Json.null) :
    filterCards cands = some (cands.filter goodCard) := by
  induction cands with
  | nil => rfl
  | cons c rest ih =>
    have hc : c ≠ Json.null := h c (by simp)
    have hrest : ∀ x ∈ rest, x ≠ Json.null := fun x hx => h x (by simp [hx])
    show (match cardPred c with
      | none => none
      | some b =>
        match filterCards rest with
        | none => none
        | some l => some (if b then c :: l else l)) = _
    rw [cardPred_eq_good c hc, ih hrest, List.filter_cons]

theorem srvErr_ne {m1 m2 : String} (d1 d2 : Option String) (h : m1 ≠ m2) :
    GenResp.srvErr m1 d1 ≠ GenResp.srvErr m2 d2 := by
  intro hEq
  injection hEq with h1 _
  exact h h1

theorem runCatch_ne_success (m : String) (res : List Json) (cnt : Nat) :
    runCatch m ≠ GenResp.success res cnt := by
  intro h
  unfold runCatch at h
  by_cases hI : includesStr m ("JSON") = true
  · rw [if_pos hI] at h
    exact GenResp.noConfusion h
  · rw [if_neg hI] at h
    exact GenResp.noConfusion h

/-- With non-blank text and a configured key, an upstream error flows into
the catch block. -/
theorem handler_http (text m : String) (hT : ¬ jsTrim text = "") :
    generateHandler text true (GatewayOut.httpError m) =
      (runCatch (msgGemini m), true) := by
  unfold generateHandler
  rw [if_neg hT]
  rfl

/-- With non-blank text and a configured key, a gateway success runs the
sanitize-parse-filter pipeline of server.js lines 88-116. -/
theorem handler_ok (text raw : String) (hT : ¬ jsTrim text = "") :
    generateHandler text true (GatewayOut.ok raw) =
      afterParse (parseChars (sanitizeChars (jsTrim raw).toList)) := by
  unfold generateHandler
  rw [if_neg hT]
  rfl

theorem afterParse_arr (cards : List Json) :
    afterParse (some (Json.arr cards)) =
      if cards.isEmpty then (runCatch msgInvalidFormat, true)
      else afterFilter (filterCards cards) := rfl

theorem afterFilter_some (valid : List Json) :
    afterFilter (some valid) =
      if valid.isEmpty then (runCatch msgNoValid, true)
      else (GenResp.success valid valid.length, true) := rfl

theorem handler_success_count (text : String) (gw : GatewayOut) (res : List Json)
    (cnt : Nat) (b : Bool)
    (h : generateHandler text true gw = (GenResp.success res cnt, b)) :
    cnt = res.length := by
  by_cases hT : jsTrim text = ""
  · unfold generateHandler at h
    rw [if_pos hT] at h
    exact GenResp.noConfusion (congrArg Prod.fst h)
  · cases gw with
    | httpError m =>
      rw [handler_http text m hT] at h
      exact absurd (show runCatch (msgGemini m) = GenResp.success res cnt from
        congrArg Prod.fst h) (runCatch_ne_success _ _ _)
    | ok raw =>
      rw [handler_ok text raw hT] at h
      cases hp : parseChars (sanitizeChars (jsTrim raw).toList) with
      | none =>
        rw [hp] at h
        exact absurd (show runCatch msgJsonSyntaxError = GenResp.success res cnt from
          congrArg Prod.fst h) (runCatch_ne_success _ _ _)
      | some j =>
        rw [hp] at h
        cases j with
        | arr items =>
          rw [afterParse_arr] at h
          by_cases hie : items.isEmpty = true
          · rw [if_pos hie] at h
            exact absurd (show runCatch msgInvalidFormat = GenResp.success res cnt from
              congrArg Prod.fst h) (runCatch_ne_success _ _ _)
          · rw [if_neg hie] at h
            cases hf : filterCards items with
            | none =>
              rw [hf] at h
              exact absurd (show runCatch msgNullProp = GenResp.success res cnt from
                congrArg Prod.fst h) (runCatch_ne_success _ _ _)
            | some valid =>
              rw [hf, afterFilter_some] at h
              by_cases hv : valid.isEmpty = true
              · rw [if_pos hv] at h
                exact absurd (show runCatch msgNoValid = GenResp.success res cnt from
                  congrArg Prod.fst h) (runCatch_ne_success _ _ _)
              · rw [if_neg hv] at h
                have h1 := congrArg Prod.fst h
                injection h1 with hres hcnt
                rw [← hcnt, ← hres]
        | null =>
          exact absurd (show runCatch msgInvalidFormat = GenResp.success res cnt from
            congrArg Prod.fst h) (runCatch_ne_success _ _ _)
        | bool b2 =>
          exact absurd (show runCatch msgInvalidFormat = GenResp.success res cnt from
            congrArg Prod.fst h) (runCatch_ne_success _ _ _)
        | num a b2 c2 d =>
          exact absurd (show runCatch msgInvalidFormat = GenResp.success res cnt from
            congrArg Prod.fst h) (runCatch_ne_success _ _ _)
        | str s =>
          exact absurd (show runCatch msgInvalidFormat = GenResp.success res cnt from
            congrArg Prod.fst h) (runCatch_ne_success _ _ _)
        | obj f =>
          exact absurd (show runCatch msgInvalidFormat = GenResp.success res cnt from
            congrArg Prod.fst h) (runCatch_ne_success _ _ _)

/-! ## Claim C1 -/

/-- Claim C1 counterexample: the source filter checks truthiness and type
only and never trims, so a candidate whose `front` is the whitespace-only
string " " — empty after trimming — is retained, against the claim that only
fields non-empty after trimming survive. -/
theorem claim1_counterexample :
    filterCards [wsFrontCard] = some [wsFrontCard] ∧
    getProp wsFrontCard ("front") = some (Json.str (" ")) ∧
    jsTrim (" ") = "" :=
  ⟨rfl, rfl, rfl⟩

/-- Claim C1 (amended): on any parsed candidate array with no null element,
the validation step keeps exactly the candidates whose `front` and `back`
properties are both present, both strings and both non-empty — without
trimming, so whitespace-only fields survive — preserving relative order
(`List.filter`), every survivor has non-empty `front`/`back`, and the
response `count` equals the number retained.  (A null element instead makes
the whole filter throw a TypeError, reported as the generic failure.) -/
theorem claim1_filter_amended (cands : List Json) (h : ∀ c ∈ cands, c ≠ Json.null) :
    filterCards cands = some (cands.filter goodCard) ∧
    (∀ c ∈ cands.filter goodCard,
      nonEmptyStrProp (getProp c ("front")) = true ∧
      nonEmptyStrProp (getProp c ("back")) = true) ∧
    (∀ text gw res cnt, generateHandler text true gw = (GenResp.success res cnt, true) →
      cnt = res.length) := by
  refine ⟨filterCards_eq cands h, ?_, ?_⟩
  · intro c hcmem
    have hg : goodCard c = true := (List.mem_filter.mp hcmem).2
    unfold goodCard at hg
    rw [Bool.and_eq_true] at hg
    exact hg
  · intro text gw res cnt hrun
    exact handler_success_count text gw res cnt true hrun

/-- Claim C1 amended, witness. -/
theorem claim1_witness :
    filterCards [wsFrontCard, Json.null] = none ∧
    filterCards [wsFrontCard, Json.bool true] =
      some ([wsFrontCard, Json.bool true].filter goodCard) ∧
    [wsFrontCard, Json.bool true].filter goodCard = [wsFrontCard] := by
  refine ⟨rfl, ?_, rfl⟩
  apply (claim1_filter_amended [wsFrontCard, Json.bool true] ?_).1
  intro c hc
  rcases List.mem_cons.mp hc with rfl | hc2
  · simp [wsFrontCard]
  · rcases List.mem_cons.mp hc2 with rfl | hc3
    · simp
    · exact absurd hc3 (List.not_mem_nil c)

/-! ## Claim C5 -/

/-- Claim C5: blank input is rejected with the 400 response before the
gateway is consulted — the result does not depend on the gateway outcome and
the invocation flag is false. -/
theorem claim5_empty_input (text : String) (key : Bool) (gw : GatewayOut)
    (h : jsTrim text = "") :
    generateHandler text key gw = (GenResp.badReq msgTextRequired, false) := by
  unfold generateHandler
  rw [if_pos h]

/-- Claim C5 witness. -/
theorem claim5_witness :
    jsTrim ("   ") = "" ∧
    generateHandler ("   ") true (GatewayOut.ok ("[1]")) =
      (GenResp.badReq msgTextRequired, false) :=
  ⟨by decide, claim5_empty_input ("   ") true (GatewayOut.ok ("[1]")) (by decide)⟩

/-! ## Claim C6 -/

/-- Claim C6 counterexample: the text "7" is valid JSON but not an array; the
claim requires the ParseError outcome, yet the code throws the format error,
whose message contains no "JSON", and so answers with the generic failure
response, not the parse-failure response. -/
theorem claim6_counterexample :
    parseChars (sanitizeChars (jsTrim ("7")).toList) =
      some (Json.num false ['7'] [] none) ∧
    generateHandler ("text") true (GatewayOut.ok ("7")) =
      (GenResp.srvErr msgGenericFail (some msgInvalidFormat), true) ∧
    msgGenericFail ≠ msgParseFail :=
  ⟨rfl, rfl, by decide⟩

/-- Claim C6 (amended): text that is not valid JSON after fence removal
yields the parse-failure response; text that is valid JSON but not an array
yields the generic failure response with the format-error details, not the
parse-failure response; and for text parsing to an array the parse-failure
branch is never taken. -/
theorem claim6_parse_errors (text raw : String) (hT : jsTrim text ≠ "") :
    (parseChars (sanitizeChars (jsTrim raw).toList) = none →
      generateHandler text true (GatewayOut.ok raw) =
        (GenResp.srvErr msgParseFail (some msgJsonSyntaxError), true)) ∧
    (∀ j, parseChars (sanitizeChars (jsTrim raw).toList) = some j →
      (∀ items, j ≠ Json.arr items) →
      generateHandler text true (GatewayOut.ok raw) =
        (GenResp.srvErr msgGenericFail (some msgInvalidFormat), true)) ∧
    (∀ items, parseChars (sanitizeChars (jsTrim raw).toList) = some (Json.arr items) →
      ∀ dtl, (generateHandler text true (GatewayOut.ok raw)).1 ≠
        GenResp.srvErr msgParseFail dtl) := by
  refine ⟨?_, ?_, ?_⟩
  · intro hp
    rw [handler_ok text raw hT, hp]
    rfl
  · intro j hp hnarr
    rw [handler_ok text raw hT, hp]
    cases j with
    | arr items => exact absurd rfl (hnarr items)
    | null => rfl
    | bool b => rfl
    | num a b c d => rfl
    | str s => rfl
    | obj f => rfl
  · intro items hp dtl
    rw [handler_ok text raw hT, hp, afterParse_arr]
    by_cases hie : items.isEmpty = true
    · rw [if_pos hie]
      exact srvErr_ne _ _ (by decide)
    · rw [if_neg hie]
      cases hf : filterCards items with
      | none =>
        exact srvErr_ne _ _ (by decide)
      | some valid =>
        rw [afterFilter_some]
        by_cases hv : valid.isEmpty = true
        · rw [if_pos hv]
          exact srvErr_ne _ _ (by decide)
        · rw [if_neg hv]
          exact fun hEq => GenResp.noConfusion hEq

/-- Claim C6 amended, witness. -/
theorem claim6_witness :
    generateHandler ("t") true (GatewayOut.ok ("nope")) =
      (GenResp.srvErr msgParseFail (some msgJsonSyntaxError), true) ∧
    generateHandler ("t") true (GatewayOut.ok ("7")) =
      (GenResp.srvErr msgGenericFail (some msgInvalidFormat), true) ∧
    (generateHandler ("t") true (GatewayOut.ok ("[]"))).1 ≠
      GenResp.srvErr msgParseFail (some msgJsonSyntaxError) :=
  ⟨(claim6_parse_errors ("t") ("nope") (by decide)).1 (by rfl),
   (claim6_parse_errors ("t") ("7") (by decide)).2.1 (Json.num false ['7'] [] none)
     (by rfl) (fun items h => Json.noConfusion h),
   (claim6_parse_errors ("t") ("[]") (by decide)).2.2 [] (by rfl)
     (some msgJsonSyntaxError)⟩

/-! ## Claim C7 -/

/-- Claim C7 counterexample: the code has no single EmptyResultError.  The
empty array — zero survivors — takes the format-error path with different
details than an all-invalid non-empty array, and none of the messages in
either case directs the user to retry: the substring "try" occurs in the
parse-failure message only. -/
theorem claim7_counterexample :
    generateHandler ("text") true (GatewayOut.ok ("[]")) =
      (GenResp.srvErr msgGenericFail (some msgInvalidFormat), true) ∧
    generateHandler ("text") true (GatewayOut.ok ("[0]")) =
      (GenResp.srvErr msgGenericFail (some msgNoValid), true) ∧
    msgInvalidFormat ≠ msgNoValid ∧
    includesStr msgGenericFail ("try") = false ∧
    includesStr msgNoValid ("try") = false ∧
    includesStr msgInvalidFormat ("try") = false ∧
    includesStr msgParseFail ("try") = true :=
  ⟨rfl, rfl, by decide, rfl, rfl, rfl, rfl⟩

/-- Claim C7 (amended): a provider output parsing to a valid non-empty array
with no null elements from which zero candidates survive yields the generic
500 failure with details 'No valid flashcards could be generated' — an
outcome distinct from the parse-failure response, but carrying no retry
directive. -/
theorem claim7_empty_survivors (text raw : String) (items : List Json)
    (hT : jsTrim text ≠ "")
    (hp : parseChars (sanitizeChars (jsTrim raw).toList) = some (Json.arr items))
    (hne : items ≠ []) (hf : filterCards items = some []) :
    generateHandler text true (GatewayOut.ok raw) =
      (GenResp.srvErr msgGenericFail (some msgNoValid), true) ∧
    ∀ dtl, GenResp.srvErr msgGenericFail (some msgNoValid) ≠
      GenResp.srvErr msgParseFail dtl := by
  constructor
  · rw [handler_ok text raw hT, hp, afterParse_arr]
    have hie : items.isEmpty = false := by
      cases items with
      | nil => exact absurd rfl hne
      | cons a l => rfl
    rw [if_neg (by simp [hie]), hf]
    rfl
  · intro dtl
    exact srvErr_ne _ _ (by decide)

/-- Claim C7 amended, witness. -/
theorem claim7_witness :
    generateHandler ("t") true (GatewayOut.ok ("[0]")) =
      (GenResp.srvErr msgGenericFail (some msgNoValid), true) ∧
    ∀ dtl, GenResp.srvErr msgGenericFail (some msgNoValid) ≠
      GenResp.srvErr msgParseFail dtl :=
  claim7_empty_survivors ("t") ("[0]") [Json.num false ['0'] [] none]
    (by decide) (by rfl) (List.cons_ne_nil _ _) (by rfl)

/-! ## Claim C10 -/

theorem occurs_append_left (pat t s : List Char) (h : occurs pat t = true) :
    occurs pat (s ++ t) = true := by
  induction s with
  | nil => exact h
  | cons c cs ih =>
    show (leads pat (c :: (cs ++ t)) || occurs pat (cs ++ t)) = true
    rw [ih]
    exact Bool.or_true _

/-- Claim C10: inside the generation endpoint's catch block a thrown error is
reported with the parse-failure response exactly when its message contains
the substring "JSON"; consequently an upstream provider failure whose
reported message happens to contain "JSON" is answered with the parse-failure
response. -/
theorem claim10_catch_classification :
    (∀ m, runCatch m = GenResp.srvErr msgParseFail (some m) ↔
      includesStr m ("JSON") = true) ∧
    (∀ m, includesStr m ("JSON") = false →
      runCatch m = GenResp.srvErr msgGenericFail (some m)) ∧
    (∀ text m, jsTrim text ≠ "" → includesStr m ("JSON") = true →
      generateHandler text true (GatewayOut.httpError m) =
        (GenResp.srvErr msgParseFail (some (msgGemini m)), true)) := by
  have hmono : ∀ pre m : String, includesStr m ("JSON") = true →
      includesStr (pre ++ m) ("JSON") = true := by
    intro pre m h
    show occurs (("JSON" : String).toList) ((pre ++ m).data) = true
    rw [String.data_append]
    exact occurs_append_left _ _ _ h
  refine ⟨?_, ?_, ?_⟩
  · intro m
    constructor
    · intro h
      cases hI : includesStr m ("JSON") with
      | true => rfl
      | false =>
        unfold runCatch at h
        rw [if_neg (by simp [hI])] at h
        injection h with h1 _
        exact absurd h1 (by decide)
    · intro h
      unfold runCatch
      rw [if_pos h]
  · intro m h
    unfold runCatch
    rw [if_neg (by simp [h])]
  · intro text m hT hJ
    rw [handler_http text m hT]
    unfold runCatch
    rw [if_pos (show includesStr (msgGemini m) ("JSON") = true from
      hmono ("Gemini API error: ") m hJ)]

/-- Claim C10 witness. -/
theorem claim10_witness :
    runCatch ("bad JSON blob") = GenResp.srvErr msgParseFail (some ("bad JSON blob")) ∧
    runCatch msgNoValid = GenResp.srvErr msgGenericFail (some msgNoValid) ∧
    generateHandler ("t") true (GatewayOut.httpError ("invalid JSON schema")) =
      (GenResp.srvErr msgParseFail (some (msgGemini ("invalid JSON schema"))), true) :=
  ⟨(claim10_catch_classification.1 ("bad JSON blob")).mpr (by rfl),
   claim10_catch_classification.2.1 msgNoValid (by rfl),
   claim10_catch_classification.2.2 ("t") ("invalid JSON schema") (by decide) (by rfl)⟩

/-! ## Lemmas: the deck repository -/

theorem castCard_sound (ci : CardInput) (c : Card) (h : castCard ci = some c) :
    c.front ≠ "" ∧ c.back ≠ "" := by
  rcases ci with ⟨fo, bo⟩
  rcases fo with _ | f
  · exact Option.noConfusion h
  · rcases bo with _ | b
    · exact Option.noConfusion h
    · replace h : (if jsTrim f = "" then none
        else if jsTrim b = "" then none
        else some ({ front := jsTrim f, back := jsTrim b } : Card)) = some c := h
      by_cases h1 : jsTrim f = ""
      · rw [if_pos h1] at h
        exact Option.noConfusion h
      · rw [if_neg h1] at h
        by_cases h2 : jsTrim b = ""
        · rw [if_pos h2] at h
          exact Option.noConfusion h
        · rw [if_neg h2] at h
          injection h with hc
          rw [← hc]
          exact ⟨h1, h2⟩

theorem castCards_sound : ∀ cs cds, castCards cs = some cds →
    ∀ c ∈ cds, c.front ≠ "" ∧ c.back ≠ "" := by
  intro cs
  induction cs with
  | nil =>
    intro cds h c hc
    injection h with h1
    rw [← h1] at hc
    exact absurd hc (List.not_mem_nil c)
  | cons ci rest ih =>
    intro cds h c hc
    unfold castCards at h
    cases hci : castCard ci with
    | none =>
      rw [hci] at h
      exact Option.noConfusion h
    | some c2 =>
      rw [hci] at h
      cases hcr : castCards rest with
      | none =>
        rw [hcr] at h
        exact Option.noConfusion h
      | some r2 =>
        rw [hcr] at h
        injection h with h1
        rw [← h1] at hc
        rcases List.mem_cons.mp hc with rfl | hmem
        · exact castCard_sound ci c hci
        · exact ih r2 hcr c hmem

theorem validateDeckDoc_sound (n : String) (cs : List CardInput) (n2 : String)
    (cds : List Card) (h : validateDeckDoc n cs = some (n2, cds)) :
    n2 = jsTrim n ∧ jsTrim n ≠ "" ∧ cds ≠ [] ∧ castCards cs = some cds ∧
      ∀ c ∈ cds, c.front ≠ "" ∧ c.back ≠ "" := by
  unfold validateDeckDoc at h
  by_cases h1 : jsTrim n = ""
  · rw [if_pos h1] at h
    exact Option.noConfusion h
  · rw [if_neg h1] at h
    cases hcc : castCards cs with
    | none =>
      rw [hcc] at h
      exact Option.noConfusion h
    | some cds2 =>
      rw [hcc] at h
      replace h : (if cds2.isEmpty = true then none
        else some (jsTrim n, cds2)) = some (n2, cds) := h
      by_cases h2 : cds2.isEmpty = true
      · rw [if_pos h2] at h
        exact Option.noConfusion h
      · rw [if_neg h2] at h
        injection h with hp
        injection hp with hpn hpc
        subst hpn
        subst hpc
        refine ⟨rfl, h1, ?_, rfl, castCards_sound cs cds2 hcc⟩
        intro hnil
        rw [hnil] at h2
        exact h2 rfl

theorem findDeck_mem : ∀ l i d, findDeck l i = some d → d ∈ l ∧ d.id = i := by
  intro l
  induction l with
  | nil => intro i d h; exact Option.noConfusion h
  | cons x r ih =>
    intro i d h
    unfold findDeck at h
    by_cases hx : x.id = i
    · rw [if_pos hx] at h
      injection h with h1
      rw [← h1]
      exact ⟨List.mem_cons_self x r, hx⟩
    · rw [if_neg hx] at h
      obtain ⟨hm, hid⟩ := ih i d h
      exact ⟨List.mem_cons_of_mem x hm, hid⟩

theorem findDeck_append_fresh : ∀ l (d : Deck), (∀ x ∈ l, x.id ≠ d.id) →
    findDeck (l ++ [d]) d.id = some d := by
  intro l d
  induction l with
  | nil =>
    intro _
    show findDeck [d] d.id = some d
    unfold findDeck
    rw [if_pos rfl]
  | cons x r ih =>
    intro h
    show findDeck (x :: (r ++ [d])) d.id = some d
    unfold findDeck
    rw [if_neg (h x (List.mem_cons_self x r))]
    exact ih (fun y hy => h y (List.mem_cons_of_mem x hy))

theorem findDeck_replace : ∀ l i (d d2 : Deck), findDeck l i = some d → d2.id = i →
    findDeck (replaceById l i d2) i = some d2 := by
  intro l
  induction l with
  | nil => intro i d d2 h _; exact Option.noConfusion h
  | cons x r ih =>
    intro i d d2 h hid
    unfold replaceById
    by_cases hx : x.id = i
    · rw [if_pos hx]
      show findDeck (d2 :: r) i = some d2
      unfold findDeck
      rw [if_pos hid]
    · rw [if_neg hx]
      show findDeck (x :: replaceById r i d2) i = some d2
      unfold findDeck
      rw [if_neg hx]
      unfold findDeck at h
      rw [if_neg hx] at h
      exact ih i d d2 h hid

theorem replace_mem : ∀ l i (d2 x : Deck), x ∈ replaceById l i d2 → x ∈ l ∨ x = d2 := by
  intro l
  induction l with
  | nil => intro i d2 x hx; exact absurd hx (List.not_mem_nil x)
  | cons y r ih =>
    intro i d2 x hx
    unfold replaceById at hx
    by_cases hy : y.id = i
    · rw [if_pos hy] at hx
      rcases List.mem_cons.mp hx with rfl | hm
      · right; rfl
      · left; exact List.mem_cons_of_mem y hm
    · rw [if_neg hy] at hx
      rcases List.mem_cons.mp hx with rfl | hm
      · left; exact List.mem_cons_self _ _
      · rcases ih i d2 x hm with hl | he
        · left; exact List.mem_cons_of_mem y hl
        · right; exact he

theorem replace_map_id : ∀ l i (d2 : Deck), d2.id = i →
    (replaceById l i d2).map (fun d => d.id) = l.map (fun d => d.id) := by
  intro l
  induction l with
  | nil => intro i d2 _; rfl
  | cons y r ih =>
    intro i d2 h
    unfold replaceById
    by_cases hy : y.id = i
    · rw [if_pos hy]
      show d2.id :: r.map (fun d => d.id) = y.id :: r.map (fun d => d.id)
      rw [h, hy]
    · rw [if_neg hy]
      show y.id :: (replaceById r i d2).map (fun d => d.id) =
        y.id :: r.map (fun d => d.id)
      rw [ih i d2 h]

theorem createDeck_some (st : RepoState) (now : Nat) (n : String)
    (cs : List CardInput) :
    createDeck st now (some n) (some cs) =
      (if n = "" then (CreateRes.badRequest msgNameCardsRequired, st)
      else if cs.isEmpty then (CreateRes.badRequest msgAtLeastOne, st)
      else
        match validateDeckDoc n cs with
        | none => (CreateRes.serverError msgCreateFail, st)
        | some (n2, cds) =>
          (CreateRes.created (mkDeck st.nextId n2 cds now now),
           mkState (st.decks ++ [mkDeck st.nextId n2 cds now now]) (st.nextId + 1))) := rfl

theorem updateDeck_eq (st : RepoState) (now i : Nat) (n : String)
    (cs : List CardInput) :
    updateDeck st now i n cs =
      (match validateDeckDoc n cs with
      | none => (UpdateRes.updateError msgUpdateFail, st)
      | some (n2, cds) => updateApply st now i n2 cds) := rfl

theorem updateApply_missing (st : RepoState) (now i : Nat) (n2 : String)
    (cds : List Card) (hfd : findDeck st.decks i = none) :
    updateApply st now i n2 cds = (UpdateRes.notFound, st) := by
  unfold updateApply
  rw [hfd]

theorem updateApply_found (st : RepoState) (now i : Nat) (n2 : String)
    (cds : List Card) (d : Deck) (hfd : findDeck st.decks i = some d) :
    updateApply st now i n2 cds =
      (UpdateRes.updated (withUpdate d n2 cds now),
       stWith st (replaceById st.decks i (withUpdate d n2 cds now))) := by
  unfold updateApply
  rw [hfd]

/-- Every successful update comes from a validated cast applied to the found
document. -/
theorem updateDeck_updated (st : RepoState) (now i : Nat) (n : String)
    (cs : List CardInput) (d2 : Deck) (st2 : RepoState)
    (h : updateDeck st now i n cs = (UpdateRes.updated d2, st2)) :
    ∃ n2 cds d, validateDeckDoc n cs = some (n2, cds) ∧
      findDeck st.decks i = some d ∧
      d2 = withUpdate d n2 cds now ∧
      st2 = stWith st (replaceById st.decks i d2) := by
  cases hv : validateDeckDoc n cs with
  | none =>
    have h2 : updateDeck st now i n cs = (UpdateRes.updateError msgUpdateFail, st) := by
      rw [updateDeck_eq, hv]
    rw [h2] at h
    exact UpdateRes.noConfusion (show UpdateRes.updateError msgUpdateFail =
      UpdateRes.updated d2 from congrArg Prod.fst h)
  | some p =>
    obtain ⟨n2, cds⟩ := p
    have h2 : updateDeck st now i n cs = updateApply st now i n2 cds := by
      rw [updateDeck_eq, hv]
    rw [h2] at h
    cases hfd : findDeck st.decks i with
    | none =>
      rw [updateApply_missing st now i n2 cds hfd] at h
      exact UpdateRes.noConfusion (show UpdateRes.notFound =
        UpdateRes.updated d2 from congrArg Prod.fst h)
    | some d =>
      rw [updateApply_found st now i n2 cds d hfd] at h
      injection h with hfst hsnd
      injection hfst with hd2
      refine ⟨n2, cds, d, rfl, rfl, hd2.symm, ?_⟩
      rw [← hsnd, hd2]

/-- Reachable repository states have unique in-range identifiers and satisfy
the deck invariants. -/
theorem reachable_good : ∀ st, Reachable st → WfIds st ∧ ∀ d ∈ st.decks, DeckInv d := by
  intro st h
  induction h with
  | init =>
    exact ⟨⟨fun d hd => absurd hd (List.not_mem_nil d), List.nodup_nil⟩,
      fun d hd => absurd hd (List.not_mem_nil d)⟩
  | createStep st now name cards hst ih =>
    obtain ⟨⟨hlt, hnd⟩, hinv⟩ := ih
    rcases name with _ | n
    · exact ⟨⟨hlt, hnd⟩, hinv⟩
    rcases cards with _ | cs
    · exact ⟨⟨hlt, hnd⟩, hinv⟩
    rw [createDeck_some st now n cs]
    by_cases hn : n = ""
    · rw [if_pos hn]
      exact ⟨⟨hlt, hnd⟩, hinv⟩
    rw [if_neg hn]
    by_cases hcs : cs.isEmpty = true
    · rw [if_pos hcs]
      exact ⟨⟨hlt, hnd⟩, hinv⟩
    rw [if_neg hcs]
    cases hv : validateDeckDoc n cs with
    | none => exact ⟨⟨hlt, hnd⟩, hinv⟩
    | some p =>
      obtain ⟨n2, cds⟩ := p
      obtain ⟨hn2, hnz, hcne, hcc, hcinv⟩ := validateDeckDoc_sound n cs n2 cds hv
      constructor
      · constructor
        · intro d hd
          rcases List.mem_append.mp hd with hmem | hmem
          · exact Nat.lt_succ_of_lt (hlt d hmem)
          · rw [List.mem_singleton.mp hmem]
            exact Nat.lt_succ_self st.nextId
        · show (List.map (fun d => d.id)
            (st.decks ++ [mkDeck st.nextId n2 cds now now])).Nodup
          rw [List.map_append]
          refine List.Nodup.append hnd (by simp) ?_
          intro a ha hb
          simp at hb
          obtain ⟨d, hd, hdid⟩ := List.mem_map.mp ha
          rw [hb] at hdid
          have hlt2 := hlt d hd
          rw [hdid] at hlt2
          exact absurd hlt2 (lt_irrefl st.nextId)
      · intro d hd
        rcases List.mem_append.mp hd with hmem | hmem
        · exact hinv d hmem
        · rw [List.mem_singleton.mp hmem]
          exact ⟨hcne, hcinv, le_rfl⟩
  | updateStep st now i name cards hst hclock ih =>
    obtain ⟨⟨hlt, hnd⟩, hinv⟩ := ih
    rw [updateDeck_eq]
    cases hv : validateDeckDoc name cards with
    | none => exact ⟨⟨hlt, hnd⟩, hinv⟩
    | some p =>
      obtain ⟨n2, cds⟩ := p
      obtain ⟨hn2, hnz, hcne, hcc, hcinv⟩ := validateDeckDoc_sound name cards n2 cds hv
      show WfIds (updateApply st now i n2 cds).2 ∧
        ∀ d ∈ (updateApply st now i n2 cds).2.decks, DeckInv d
      cases hfd : findDeck st.decks i with
      | none =>
        rw [updateApply_missing st now i n2 cds hfd]
        exact ⟨⟨hlt, hnd⟩, hinv⟩
      | some d =>
        rw [updateApply_found st now i n2 cds d hfd]
        obtain ⟨hdmem, hdid⟩ := findDeck_mem st.decks i d hfd
        constructor
        · constructor
          · intro x hx
            rcases replace_mem st.decks i _ x hx with hm | he
            · exact hlt x hm
            · rw [he]
              exact hlt d hdmem
          · show ((replaceById st.decks i (withUpdate d n2 cds now)).map
              (fun d => d.id)).Nodup
            rw [replace_map_id st.decks i (withUpdate d n2 cds now)
              (show (withUpdate d n2 cds now).id = i from hdid)]
            exact hnd
        · intro x hx
          rcases replace_mem st.decks i _ x hx with hm | he
          · exact hinv x hm
          · rw [he]
            exact ⟨hcne, hcinv, hclock d hdmem⟩

/-! ## Claim C2 -/

/-- Claim C2 counterexample: creating a deck with a card whose `front` is
empty makes the mongoose save throw, and the catch block answers HTTP 500
('Failed to create deck'), not the claimed 400. -/
theorem claim2_counterexample :
    statusOfCreate (createDeck initState 0 (some ("D")) (some [badCardInput])).1 = 500 ∧
    (createDeck initState 0 (some ("D")) (some [badCardInput])).1 =
      CreateRes.serverError msgCreateFail ∧
    (createDeck initState 0 (some ("D")) (some [badCardInput])).2 = initState ∧
    (500 : Nat) ≠ 400 :=
  ⟨rfl, rfl, rfl, by decide⟩

/-- Claim C2 (amended): a missing or empty name, a missing cards value and an
empty cards array are rejected with 400 and nothing is persisted; an invalid
card (missing or blank `front`/`back`) makes the save's validation fail,
which the handler reports as a 500 — not a 400 — with nothing persisted; and
a fully valid request is persisted with a fresh id,
`createdAt = updatedAt = now`, and answered 201 with the stored deck. -/
theorem claim2_create_contract (st : RepoState) (now : Nat) (n : String)
    (cs : List CardInput) (hn : n ≠ "") (hcs : ¬ cs.isEmpty = true) :
    (∀ c, createDeck st now none c = (CreateRes.badRequest msgNameCardsRequired, st)) ∧
    (createDeck st now (some n) none = (CreateRes.badRequest msgNameCardsRequired, st)) ∧
    (∀ m, createDeck st now (some "") m = (CreateRes.badRequest msgNameCardsRequired, st)) ∧
    (createDeck st now (some n) (some []) = (CreateRes.badRequest msgAtLeastOne, st)) ∧
    (validateDeckDoc n cs = none →
      createDeck st now (some n) (some cs) = (CreateRes.serverError msgCreateFail, st)) ∧
    (∀ n2 cds, validateDeckDoc n cs = some (n2, cds) →
      createDeck st now (some n) (some cs) =
        (CreateRes.created (mkDeck st.nextId n2 cds now now),
         mkState (st.decks ++ [mkDeck st.nextId n2 cds now now]) (st.nextId + 1))) ∧
    statusOfCreate (CreateRes.badRequest msgNameCardsRequired) = 400 ∧
    statusOfCreate (CreateRes.serverError msgCreateFail) = 500 ∧
    (∀ d, statusOfCreate (CreateRes.created d) = 201) := by
  refine ⟨fun c => rfl, rfl, ?_, ?_, ?_, ?_, rfl, rfl, fun d => rfl⟩
  · intro m
    rcases m with _ | cs2
    · rfl
    · rw [createDeck_some, if_pos rfl]
  · rw [createDeck_some, if_neg hn]
    rfl
  · intro hval
    rw [createDeck_some, if_neg hn, if_neg hcs, hval]
  · intro n2 cds hval
    rw [createDeck_some, if_neg hn, if_neg hcs, hval]

/-- Claim C2 amended, witness. -/
theorem claim2_witness :
    createDeck initState 7 (some ("Bio")) (some []) =
      (CreateRes.badRequest msgAtLeastOne, initState) ∧
    createDeck initState 7 (some ("Bio")) (some [badCardInput]) =
      (CreateRes.serverError msgCreateFail, initState) ∧
    createDeck initState 7 (some ("Bio")) (some [cardIn ("Q") ("A")]) =
      (CreateRes.created (mkDeck 0 ("Bio") [mkCard ("Q") ("A")] 7 7),
       mkState [mkDeck 0 ("Bio") [mkCard ("Q") ("A")] 7 7] 1) := by
  have h := claim2_create_contract initState 7 ("Bio") [badCardInput]
    (by decide) (by decide)
  refine ⟨h.2.2.2.1, h.2.2.2.2.1 (by rfl), ?_⟩
  have h2 := claim2_create_contract initState 7 ("Bio") [cardIn ("Q") ("A")]
    (by decide) (by decide)
  exact h2.2.2.2.2.2.1 ("Bio") [mkCard ("Q") ("A")] (by rfl)

/-! ## Claim C4 -/

/-- Claim C4: every repository state reachable through create and update
under a monotone clock satisfies the deck invariants — at least one card,
non-empty trimmed card fields, `updatedAt ≥ createdAt` — and every
successful update sets `updatedAt` to the operation's current time, so it
strictly advances whenever the clock has advanced past the stored value. -/
theorem claim4_deck_invariants (st : RepoState) (h : Reachable st) :
    (∀ d ∈ st.decks, d.cards ≠ [] ∧ (∀ c ∈ d.cards, c.front ≠ "" ∧ c.back ≠ "") ∧
      d.createdAt ≤ d.updatedAt) ∧
    (∀ now i n cs d2 st2, updateDeck st now i n cs = (UpdateRes.updated d2, st2) →
      d2.updatedAt = now ∧
      ∀ dOld, findDeck st.decks i = some dOld →
        d2.createdAt = dOld.createdAt ∧
        (dOld.updatedAt < now → dOld.updatedAt < d2.updatedAt)) := by
  constructor
  · intro d hd
    exact (reachable_good st h).2 d hd
  · intro now i n cs d2 st2 hupd
    obtain ⟨n2, cds, d, hv, hfd, hd2, hst2⟩ :=
      updateDeck_updated st now i n cs d2 st2 hupd
    constructor
    · rw [hd2]
      rfl
    · intro dOld hfd2
      rw [hfd] at hfd2
      injection hfd2 with hde
      rw [← hde, hd2]
      exact ⟨rfl, fun hlt => hlt⟩

/-- Claim C4 witness. -/
theorem claim4_witness :
    (∀ d ∈ initState.decks, d.cards ≠ [] ∧
      (∀ c ∈ d.cards, c.front ≠ "" ∧ c.back ≠ "") ∧
      d.createdAt ≤ d.updatedAt) ∧
    (∀ now i n cs d2 st2,
      updateDeck initState now i n cs = (UpdateRes.updated d2, st2) →
      d2.updatedAt = now ∧
      ∀ dOld, findDeck initState.decks i = some dOld →
        d2.createdAt = dOld.createdAt ∧
        (dOld.updatedAt < now → dOld.updatedAt < d2.updatedAt)) :=
  claim4_deck_invariants initState Reachable.init

/-! ## Claim C8 -/

/-- Claim C8 counterexample: mongoose `trim: true` stores trimmed values, so
creating a deck with name "N " and card front " Q " and reading it back
yields name "N" and front "Q" — not the given strings. -/
theorem claim8_counterexample :
    (createDeck initState 0 (some ("N ")) (some [cardIn (" Q ") ("A")])).1 =
      CreateRes.created (mkDeck 0 ("N") [mkCard ("Q") ("A")] 0 0) ∧
    getDeck (createDeck initState 0 (some ("N ")) (some [cardIn (" Q ") ("A")])).2 0 =
      some (mkDeck 0 ("N") [mkCard ("Q") ("A")] 0 0) ∧
    ("N" : String) ≠ "N " ∧ ("Q" : String) ≠ " Q " :=
  ⟨rfl, rfl, by decide, by decide⟩

/-- Claim C8 (amended): in a well-formed state, creating a deck from a valid
name and cards and reading back the assigned id returns exactly the stored
deck, whose name is the given name trimmed and whose cards are the given
cards field-wise trimmed (the validated cast), in the same order; for
already-trimmed inputs this is literal equality. -/
theorem claim8_roundtrip (st : RepoState) (now : Nat) (n : String)
    (cs : List CardInput) (n2 : String) (cds : List Card) (hwf : WfIds st)
    (hval : validateDeckDoc n cs = some (n2, cds)) (hn : n ≠ "")
    (hcs : ¬ cs.isEmpty = true) :
    ∀ d st2, createDeck st now (some n) (some cs) = (CreateRes.created d, st2) →
      getDeck st2 d.id = some d ∧ d.name = jsTrim n ∧ d.cards = cds ∧
        d.id = st.nextId := by
  intro d st2 hc
  have h2 : createDeck st now (some n) (some cs) =
      (CreateRes.created (mkDeck st.nextId n2 cds now now),
       mkState (st.decks ++ [mkDeck st.nextId n2 cds now now]) (st.nextId + 1)) := by
    rw [createDeck_some, if_neg hn, if_neg hcs, hval]
  rw [h2] at hc
  injection hc with h3 h4
  injection h3 with h5
  rw [← h5, ← h4]
  refine ⟨?_, (validateDeckDoc_sound n cs n2 cds hval).1, rfl, rfl⟩
  show findDeck (st.decks ++ [mkDeck st.nextId n2 cds now now])
    (mkDeck st.nextId n2 cds now now).id = some (mkDeck st.nextId n2 cds now now)
  apply findDeck_append_fresh
  intro x hx
  exact Nat.ne_of_lt (hwf.1 x hx)

/-- Claim C8 amended, witness. -/
theorem claim8_witness :
    getDeck (createDeck initState 4 (some ("Bio")) (some [cardIn ("Q") ("A")])).2 0 =
      some (mkDeck 0 ("Bio") [mkCard ("Q") ("A")] 4 4) ∧
    jsTrim ("Bio") = ("Bio") := by
  have h := claim8_roundtrip initState 4 ("Bio") [cardIn ("Q") ("A")] ("Bio")
    [mkCard ("Q") ("A")]
    ⟨fun d hd => absurd hd (List.not_mem_nil d), List.nodup_nil⟩
    (by rfl) (by decide) (by decide)
    (mkDeck 0 ("Bio") [mkCard ("Q") ("A")] 4 4)
    (mkState [mkDeck 0 ("Bio") [mkCard ("Q") ("A")] 4 4] 1)
    (by rfl)
  exact ⟨h.1, by decide⟩

/-! ## Claim C9 -/

/-- Claim C9: updating an existing deck with a valid name and cards succeeds,
preserves `id` and `createdAt`, sets `updatedAt` to the current time, and a
subsequent get of that id returns the updated deck carrying the new (trimmed)
name and cards; updating an absent id with the same valid input fails with
the 404 outcome and leaves the state unchanged. -/
theorem claim9_update_frame (st : RepoState) (now i : Nat) (n : String)
    (cs : List CardInput) (n2 : String) (cds : List Card)
    (hval : validateDeckDoc n cs = some (n2, cds)) :
    (∀ d, findDeck st.decks i = some d →
      ∃ d2 st2, updateDeck st now i n cs = (UpdateRes.updated d2, st2) ∧
        d2.id = d.id ∧ d2.createdAt = d.createdAt ∧ d2.updatedAt = now ∧
        d2.name = n2 ∧ d2.cards = cds ∧ n2 = jsTrim n ∧
        getDeck st2 i = some d2 ∧ statusOfUpdate (UpdateRes.updated d2) = 200) ∧
    (findDeck st.decks i = none →
      updateDeck st now i n cs = (UpdateRes.notFound, st) ∧
      statusOfUpdate UpdateRes.notFound = 404) := by
  have h2 : updateDeck st now i n cs = updateApply st now i n2 cds := by
    rw [updateDeck_eq, hval]
  constructor
  · intro d hfd
    refine ⟨withUpdate d n2 cds now,
      stWith st (replaceById st.decks i (withUpdate d n2 cds now)),
      ?_, rfl, rfl, rfl, rfl, rfl,
      (validateDeckDoc_sound n cs n2 cds hval).1, ?_, rfl⟩
    · rw [h2, updateApply_found st now i n2 cds d hfd]
    · show findDeck (replaceById st.decks i (withUpdate d n2 cds now)) i =
        some (withUpdate d n2 cds now)
      exact findDeck_replace st.decks i d (withUpdate d n2 cds now) hfd
        (findDeck_mem st.decks i d hfd).2
  · intro hfd
    refine ⟨?_, rfl⟩
    rw [h2, updateApply_missing st now i n2 cds hfd]

/-- Claim C9 witness. -/
theorem claim9_witness :
    (∃ d2 st2,
      updateDeck (mkState [mkDeck 0 ("Bio") [mkCard ("Q") ("A")] 5 5] 1)
          9 0 ("Chem") [cardIn ("X") ("Y")] =
        (UpdateRes.updated d2, st2) ∧
      d2.id = (mkDeck 0 ("Bio") [mkCard ("Q") ("A")] 5 5).id ∧
      d2.createdAt = (mkDeck 0 ("Bio") [mkCard ("Q") ("A")] 5 5).createdAt ∧
      d2.updatedAt = 9 ∧
      d2.name = ("Chem") ∧ d2.cards = [mkCard ("X") ("Y")] ∧
      ("Chem" : String) = jsTrim ("Chem") ∧
      getDeck st2 0 = some d2 ∧ statusOfUpdate (UpdateRes.updated d2) = 200) ∧
    updateDeck initState 9 0 ("Chem") [cardIn ("X") ("Y")] =
      (UpdateRes.notFound, initState) ∧
    statusOfUpdate UpdateRes.notFound = 404 := by
  constructor
  · exact (claim9_update_frame (mkState [mkDeck 0 ("Bio") [mkCard ("Q") ("A")] 5 5] 1)
      9 0 ("Chem") [cardIn ("X") ("Y")] ("Chem") [mkCard ("X") ("Y")] (by rfl)).1
      (mkDeck 0 ("Bio") [mkCard ("Q") ("A")] 5 5) (by rfl)
  · exact (claim9_update_frame initState 9 0 ("Chem") [cardIn ("X") ("Y")]
      ("Chem") [mkCard ("X") ("Y")] (by rfl)).2 (by rfl)

end Memforge
